import Mathlib

/-
Verification development for the Zenoss OpenCensus Go exporter
(opencensus-go-exporter-zenoss).  The definitions below are a shallow
embedding of the exporter core: `data.go` (view-to-record translation,
bundling, delivery reporting), `utils.go` (protobuf metadata encoding),
`kubernetes.go` (impact enrichment) and the freshness checker.  Go maps
are modelled as association lists with overwrite-on-insert semantics;
float64 metric values are modelled as rationals (the exporter performs
no arithmetic on them, it only copies them through); external
collaborators (the gRPC client, compiled regular expressions, the
bundler buffer, the structural hash function) are modelled as explicit
function parameters.
-/

namespace ZenossExporter

/-! ### Association lists modelling Go maps -/

/-- Lookup in an association list modelling a Go map. -/
def alookup {κ β : Type} [DecidableEq κ] (m : List (κ × β)) (k : κ) : Option β :=
  (m.find? (fun p => decide (p.1 = k))).map Prod.snd

/-- Insert/overwrite in an association list, modelling Go map assignment. -/
def ainsert {κ β : Type} [DecidableEq κ] (m : List (κ × β)) (k : κ) (v : β) :
    List (κ × β) :=
  (k, v) :: m.filter (fun p => !(decide (p.1 = k)))

/-! ### Constants from data.go and kubernetes.go -/

/-- DefaultAddress is the default Zenoss API endpoint address. -/
def DefaultAddress : String := "api.zenoss.io:443"

/-- DefaultSourceType is the default source-type identifying this exporter. -/
def DefaultSourceType : String := "zenoss/opencensus-go-exporter-zenoss"

/-- SourceTypeField is the dimension or metadata field name for the source-type. -/
def SourceTypeField : String := "source-type"

/-- NameField is the model metadata field for an entity's display name. -/
def NameField : String := "name"

/-- DescriptionField is the optional metric metadata field for a description. -/
def DescriptionField : String := "description"

/-- UnitsField is the optional metric metadata field for a unit of measure. -/
def UnitsField : String := "units"

/-- K8sClusterField is an optional metadata field containing a Kubernetes cluster. -/
def K8sClusterField : String := "k8s.cluster"

/-- K8sNamespaceField is an optional metadata field containing a Kubernetes namespace. -/
def K8sNamespaceField : String := "k8s.namespace"

/-- K8sPodField is an optional metadata field containing a Kubernetes pod. -/
def K8sPodField : String := "k8s.pod"

/-- ImpactFromDimensionsField is an optional model metadata field. -/
def ImpactFromDimensionsField : String := "impactFromDimensions"

/-- ImpactToDimensionsField is an optional model metadata field. -/
def ImpactToDimensionsField : String := "impactToDimensions"

/-! ### Log levels (data.go `LogLevel` constants) -/

abbrev LogLevel := Int

def LogLevelDebug : LogLevel := 1
def LogLevelInfo : LogLevel := 2
def LogLevelWarning : LogLevel := 3
def LogLevelError : LogLevel := 4

/-- One emitted log line: severity, numeric fields and message. -/
structure LogEntry where
  Level : LogLevel
  Fields : List (String × Int)
  Msg : String
deriving DecidableEq

/-! ### Protobuf structpb values (utils.go) -/

/-- Shallow embedding of `structpb.Value`: a string value or a list value. -/
inductive PbValue where
  | stringValue (s : String)
  | listValue (values : List PbValue)

/-- String-keyed map as carried by OpenCensus tags / Go map[string]string. -/
abbrev Smap := List (String × String)

/-- Fields of a `structpb.Struct`. -/
abbrev PbFields := List (String × PbValue)

/-- utils.go valueFromString. -/
def valueFromString (s : String) : PbValue := PbValue.stringValue s

/-- utils.go valueFromStringSlice. -/
def valueFromStringSlice (ss : List String) : PbValue :=
  PbValue.listValue (ss.map valueFromString)

/-- The per-key encoding applied by metadataFieldsFromMap: impact fields become
a singleton list value, all other fields become a plain string value. -/
def wrapValue (k : String) (v : String) : PbValue :=
  if k = ImpactFromDimensionsField ∨ k = ImpactToDimensionsField then
    valueFromStringSlice [v]
  else
    valueFromString v

/-- utils.go metadataFieldsFromMap: encode a string map as structpb fields. -/
def metadataFieldsFromMap (m : Smap) : PbFields :=
  m.map (fun p => (p.1, wrapValue p.1 p.2))

/-- utils.go copyMap.  The Go code copies the map to avoid aliasing a shared
mutable map; with immutable association lists the copy is the identity. -/
def copyMap (m : Smap) : Smap := m

/-- kubernetes.go addKubernetesImpacts: when non-empty cluster, namespace and
pod fields are all present, synthesize the impactFromDimensions field. -/
def addKubernetesImpacts (metadataFields : Smap) : Smap :=
  match alookup metadataFields K8sClusterField with
  | none => metadataFields
  | some cluster =>
    if cluster = "" then metadataFields else
    match alookup metadataFields K8sNamespaceField with
    | none => metadataFields
    | some ns =>
      if ns = "" then metadataFields else
      match alookup metadataFields K8sPodField with
      | none => metadataFields
      | some pod =>
        if pod = "" then metadataFields else
        ainsert metadataFields ImpactFromDimensionsField
          (K8sClusterField ++ "=" ++ cluster ++ "," ++
           K8sNamespaceField ++ "=" ++ ns ++ "," ++
           K8sPodField ++ "=" ++ pod)

/-! ### OpenCensus view data (input snapshot) -/

/-- One OpenCensus tag attached to a row (tag.Key.Name() and tag.Value). -/
structure Tag where
  Key : String
  Value : String
deriving DecidableEq

/-- The aggregation payload of a view.Row: view.CountData, view.SumData,
view.LastValueData or view.DistributionData. -/
inductive AggregationData where
  | countData (value : Int)
  | sumData (value : Rat)
  | lastValueData (value : Rat)
  | distributionData (count : Int) (min max mean sumOfSquaredDev : Rat)

/-- One view.Row: tags plus one aggregation payload. -/
structure Row where
  Tags : List Tag
  Data : AggregationData

/-- One view.Data snapshot, with the view's name, description and measure
unit flattened in, the end timestamp in Unix nanoseconds, and the rows. -/
structure ViewData where
  Name : String
  Description : String
  Unit : String
  EndUnixNano : Int
  Rows : List Row

/-! ### Outbound Zenoss records (zenoss-protobufs Model / Metric) -/

/-- One Zenoss model record. -/
structure Model where
  Timestamp : Int
  Dimensions : Smap
  MetadataFields : PbFields

/-- One Zenoss metric record. -/
structure Metric where
  MetricName : String
  Dimensions : Smap
  MetadataFields : PbFields
  Timestamp : Int
  Value : Rat

/-- data.go `Data`: the models and metrics translated from view data. -/
structure Data where
  Models : List Model
  Metrics : List Metric

/-- data.go `Data.AddModel` / `Data.AddMetric` accumulated over two results. -/
def dataAppend (a b : Data) : Data :=
  ⟨a.Models ++ b.Models, a.Metrics ++ b.Metrics⟩

/-! ### Exporter configuration (data.go `Options` and `Exporter`) -/

/-- data.go Options.  The override hooks are modelled as optional pure
functions; log emission is modelled by returning log entries. -/
structure Options where
  Address : String := ""
  APIKey : String := ""
  GlobalDimensions : Smap := []
  GlobalMetadataFields : Smap := []
  ModelDimensionTags : List String := []
  IgnoredMetricNames : List String := []
  BundleDelayThreshold : Int := 0
  BundleCountThreshold : Int := 0
  OnViewData : Option (ViewData → Data × Bool) := none
  OnViewRow : Option (ViewData → Row → Data × Bool) := none
  OnData : Option (Data → Data) := none

/-- data.go Exporter.  A compiled ignore-pattern regular expression is
modelled by its `FindString` function (empty result means no match). -/
structure Exporter where
  options : Options
  ignoredMetrics : List (String → String)
  delayThreshold : Int
  countThreshold : Int
  freshnessSeconds : Int

/-! ### Row translation (data.go onViewRow) -/

/-- The dimension-collection loop of onViewRow: for each configured dimension
tag name scan the row's tags in order, first match wins, record the dimension
and append its value to nameParts (in configured-dimension order). -/
def collectDims (tags : List Tag) : List String → Smap × List String
  | [] => ([], [])
  | d :: ds =>
    let rest := collectDims tags ds
    match tags.find? (fun t => decide (t.Key = d)) with
    | some t => (ainsert rest.1 d t.Value, t.Value :: rest.2)
    | none => rest

/-- The matched tag values of a row, in configured-dimension order with
first-match-wins per configured name (the nameParts of onViewRow). -/
def matchedTagValues (modelDimensionTags : List String) (tags : List Tag) :
    List String :=
  modelDimensionTags.filterMap
    (fun d => (tags.find? (fun t => decide (t.Key = d))).map Tag.Value)

/-- data.go onViewRow: translate one row into at most one model and a list of
metrics, or skip it (with a debug trace) when no tag matches any configured
model dimension tag. -/
def onViewRow (opts : Options) (viewData : ViewData) (viewRow : Row) :
    Option Data × List LogEntry :=
  let cd := collectDims viewRow.Tags opts.ModelDimensionTags
  let dims0 := cd.1
  let nameParts := cd.2
  let metadataFields0 : Smap := [(SourceTypeField, DefaultSourceType)]
  if nameParts = [] then
    (none, [⟨LogLevelDebug, [], "ignoring row with no model dimension tags"⟩])
  else
    let metadataFields1 := viewRow.Tags.foldl
      (fun m t => if (alookup dims0 t.Key).isSome then m else ainsert m t.Key t.Value)
      metadataFields0
    let metadataFields2 := addKubernetesImpacts metadataFields1
    let dimensions := opts.GlobalDimensions.foldl (fun m p => ainsert m p.1 p.2) dims0
    let metadataFields3 :=
      opts.GlobalMetadataFields.foldl (fun m p => ainsert m p.1 p.2) metadataFields2
    if nameParts = [] then (none, []) else
    let timestamp := viewData.EndUnixNano.tdiv 1000000
    let modelMetadataFields :=
      ainsert (copyMap metadataFields3) NameField (String.intercalate "/" nameParts)
    let model : Model := ⟨timestamp, dimensions, metadataFieldsFromMap modelMetadataFields⟩
    let addMetric : String → Rat → Metric := fun name value =>
      let mm0 := copyMap metadataFields3
      let mm1 := if viewData.Description = "" then mm0
                 else ainsert mm0 DescriptionField viewData.Description
      let mm2 := if viewData.Unit = "" then mm1
                 else ainsert mm1 UnitsField viewData.Unit
      ⟨name, copyMap dimensions, metadataFieldsFromMap mm2, timestamp, value⟩
    let metrics : List Metric :=
      match viewRow.Data with
      | .countData v => [addMetric viewData.Name (v : Rat)]
      | .sumData v => [addMetric viewData.Name v]
      | .lastValueData v => [addMetric viewData.Name v]
      | .distributionData count mn mx mean ss =>
        [addMetric (viewData.Name ++ "/count") (count : Rat),
         addMetric (viewData.Name ++ "/min") mn,
         addMetric (viewData.Name ++ "/max") mx,
         addMetric (viewData.Name ++ "/mean") mean,
         addMetric (viewData.Name ++ "/ss") ss]
    (some ⟨[model], metrics⟩, [])

/-- data.go onViewData: translate every row of the snapshot, honouring the
optional OnViewRow hook; all per-row emissions are accumulated. -/
def Exporter.onViewData (e : Exporter) (viewData : ViewData) : Data × List LogEntry :=
  viewData.Rows.foldl
    (fun acc row =>
      match e.options.OnViewRow with
      | some hook =>
        let hr := hook viewData row
        if hr.2 then (dataAppend acc.1 hr.1, acc.2)
        else
          let dr := onViewRow e.options viewData row
          match dr.1 with
          | some d => (dataAppend (dataAppend acc.1 hr.1) d, acc.2 ++ dr.2)
          | none => (dataAppend acc.1 hr.1, acc.2 ++ dr.2)
      | none =>
        let dr := onViewRow e.options viewData row
        match dr.1 with
        | some d => (dataAppend acc.1 d, acc.2 ++ dr.2)
        | none => (acc.1, acc.2 ++ dr.2))
    (⟨[], []⟩, [])

/-- The ignore-pattern check of ExportView: some compiled pattern's FindString
on the view name returns a non-empty string. -/
def matchesIgnored (e : Exporter) (name : String) : Bool :=
  e.ignoredMetrics.any (fun r => !(r name == ""))

/-- data.go ExportView: debug-trace the view, reject it when its name matches
an ignore pattern, otherwise honour the OnViewData hook and run the default
per-row translation.  Returns all emitted records and log entries. -/
def Exporter.ExportView (e : Exporter) (viewData : ViewData) : Data × List LogEntry :=
  let l0 : List LogEntry := [⟨LogLevelDebug, [], "exporting view"⟩]
  if matchesIgnored e viewData.Name then
    (⟨[], []⟩, l0 ++ [⟨LogLevelDebug, [], "ignoring metric"⟩])
  else
    match e.options.OnViewData with
    | some hook =>
      let r := hook viewData
      if r.2 then (r.1, l0)
      else
        let r2 := Exporter.onViewData e viewData
        (r2.1, l0 ++ r2.2)
    | none =>
      let r2 := Exporter.onViewData e viewData
      (r2.1, l0 ++ r2.2)

/-! ### Freshness checker (freshnessChecker.isFresh and its eviction loop) -/

/-- The freshness cache: dimension hash to (metadata hash, last-seen time). -/
abbrev FreshMap := List (Nat × (Nat × Int))

/-- freshnessChecker.isFresh, with the structural hash function
(`hashstructure.Hash`) modelled by the two hash parameters and the current
wall-clock second passed explicitly.  Returns the fresh flag and the updated
cache: a hit with matching metadata hash leaves the cache unchanged and is
fresh; anything else inserts/overwrites the entry at the current time and is
not fresh. -/
def isFresh (hashD : Smap → Nat) (hashM : PbFields → Nat) (now : Int)
    (fm : FreshMap) (model : Model) : Bool × FreshMap :=
  let keyHash := hashD model.Dimensions
  let valueHash := hashM model.MetadataFields
  match alookup fm keyHash with
  | some old =>
    if valueHash = old.1 then (true, fm)
    else (false, ainsert fm keyHash (valueHash, now))
  | none => (false, ainsert fm keyHash (valueHash, now))

/-- One pass of the background eviction loop started by newFreshnessChecker:
delete every entry whose age exceeds the TTL in seconds. -/
def evictExpired (seconds now : Int) (fm : FreshMap) : FreshMap :=
  fm.filter (fun e => !(decide (now - e.2.2 > seconds)))

/-! ### Bundling (data.go bundleData) -/

/-- Result of bundler.Add: overflow (bundler.ErrOverflow) or any other error. -/
inductive BundlerErr where
  | overflow
  | other
deriving DecidableEq

def modelsOverflowLog : LogEntry :=
  ⟨LogLevelError, [], "failed to send models: buffer full"⟩

def modelsAddErrorLog : LogEntry :=
  ⟨LogLevelError, [], "failed to send models"⟩

def metricsOverflowLog : LogEntry :=
  ⟨LogLevelError, [], "failed to send metrics: buffer full"⟩

def metricsAddErrorLog : LogEntry :=
  ⟨LogLevelError, [], "failed to send metrics"⟩

/-- The per-record add loop of bundleData: attempt to add each record to the
bundler; a failed add logs at error severity (with a dedicated message for
overflow) and drops only that record, then the loop continues. -/
def bundleLoop {σ α : Type} (add : σ → α → Except BundlerErr σ)
    (logOverflow logOther : LogEntry) : σ → List α → σ × List LogEntry
  | s, [] => (s, [])
  | s, x :: rest =>
    match add s x with
    | .ok s2 => bundleLoop add logOverflow logOther s2 rest
    | .error .overflow =>
      let r := bundleLoop add logOverflow logOther s rest
      (r.1, logOverflow :: r.2)
    | .error .other =>
      let r := bundleLoop add logOverflow logOther s rest
      (r.1, logOther :: r.2)

/-- The models loop of bundleData: skip models the freshness checker reports
as fresh, otherwise add to the models bundler with the same error policy as
`bundleLoop`. -/
def bundleModels {σ : Type} (hashD : Smap → Nat) (hashM : PbFields → Nat)
    (now : Int) (add : σ → Model → Except BundlerErr σ) :
    FreshMap → σ → List Model → FreshMap × σ × List LogEntry
  | fm, s, [] => (fm, s, [])
  | fm, s, m :: rest =>
    let fr := isFresh hashD hashM now fm m
    if fr.1 then bundleModels hashD hashM now add fr.2 s rest
    else
      match add s m with
      | .ok s2 => bundleModels hashD hashM now add fr.2 s2 rest
      | .error .overflow =>
        let r := bundleModels hashD hashM now add fr.2 s rest
        (r.1, r.2.1, modelsOverflowLog :: r.2.2)
      | .error .other =>
        let r := bundleModels hashD hashM now add fr.2 s rest
        (r.1, r.2.1, modelsAddErrorLog :: r.2.2)

/-- data.go bundleData: apply the OnData hook, filter models through the
freshness checker and add every surviving record to its bundler, logging and
dropping individual records whose add fails. -/
def bundleData {σm σx : Type} (onDataHook : Option (Data → Data))
    (hashD : Smap → Nat) (hashM : PbFields → Nat) (now : Int)
    (addModel : σm → Model → Except BundlerErr σm)
    (addMetric : σx → Metric → Except BundlerErr σx)
    (fm : FreshMap) (sm : σm) (sx : σx) (data : Data) :
    FreshMap × σm × σx × List LogEntry :=
  let d := match onDataHook with
           | some h => h data
           | none => data
  let rm := bundleModels hashD hashM now addModel fm sm d.Models
  let rx := bundleLoop addMetric metricsOverflowLog metricsAddErrorLog sx d.Metrics
  (rm.1, rm.2.1, rx.1, rm.2.2 ++ rx.2)

/-! ### Delivery reporting (data.go putModels / putMetrics) -/

/-- The backend's per-batch status (zenoss.StatusResult GetFailed). -/
structure PutStatus where
  Failed : Int
deriving DecidableEq

/-- data.go putModels: one outbound call; transport failure logs at error
severity with the record count, partial rejection logs at warning severity
with the counts, full success logs at debug severity.  No retry. -/
def putModels (call : List Model → Except String PutStatus)
    (models : List Model) : List LogEntry :=
  match call models with
  | .error _ =>
    [⟨LogLevelError, [("models", (models.length : Int))], "unable to send models"⟩]
  | .ok st =>
    if st.Failed > 0 then
      [⟨LogLevelWarning, [("models", (models.length : Int)), ("failed", st.Failed)],
        "failed to send models"⟩]
    else
      [⟨LogLevelDebug, [("models", (models.length : Int))], "sent models"⟩]

/-- data.go putMetrics: same outcome trichotomy as putModels. -/
def putMetrics (call : List Metric → Except String PutStatus)
    (metrics : List Metric) : List LogEntry :=
  match call metrics with
  | .error _ =>
    [⟨LogLevelError, [("metrics", (metrics.length : Int))], "unable to send metrics"⟩]
  | .ok st =>
    if st.Failed > 0 then
      [⟨LogLevelWarning, [("metrics", (metrics.length : Int)), ("failed", st.Failed)],
        "failed to send metrics"⟩]
    else
      [⟨LogLevelDebug, [("metrics", (metrics.length : Int))], "sent metrics"⟩]

/-! ### Construction (data.go NewExporter) -/

/-- The ignore-pattern compilation loop of NewExporter: compile each pattern
in order, returning the first compilation error. -/
def compileIgnored (compile : String → Except String (String → String)) :
    List String → Except String (List (String → String))
  | [] => .ok []
  | s :: rest =>
    match compile s with
    | .ok r => (compileIgnored compile rest).map (fun rs => r :: rs)
    | .error e => .error e

/-- data.go NewExporter, with regexp.Compile and grpc.Dial modelled as
function parameters.  An empty address is replaced by DefaultAddress; a
pattern that fails to compile or a failing dial aborts construction; the
bundler thresholds default to 1 second / 1000 records; the model freshness
TTL is 3600 seconds.  The API key is stored but never validated. -/
def NewExporter (compile : String → Except String (String → String))
    (dial : String → Except String Unit) (options : Options) :
    Except String Exporter :=
  let options2 := if options.Address = "" then
                    { options with Address := DefaultAddress }
                  else options
  match compileIgnored compile options2.IgnoredMetricNames with
  | .error e => .error e
  | .ok ignoredMetrics =>
    match dial options2.Address with
    | .error e => .error e
    | .ok _ =>
      .ok { options := options2
            ignoredMetrics := ignoredMetrics
            delayThreshold := if options2.BundleDelayThreshold > 0 then
                                options2.BundleDelayThreshold
                              else 1000
            countThreshold := if options2.BundleCountThreshold > 0 then
                                options2.BundleCountThreshold
                              else 1000
            freshnessSeconds := 3600 }

/-- Whether an Except value is a success. -/
def exceptIsOk {ε α : Type} (x : Except ε α) : Bool :=
  match x with
  | .ok _ => true
  | .error _ => false

/-! ### Observation helpers for the translated records -/

/-- The model record emitted by one onViewRow result, if any. -/
def emittedModel (r : Option Data × List LogEntry) : Option Model :=
  r.1.bind (fun d => d.Models.head?)

/-- The name metadata field of the model record emitted by one onViewRow
result, if any. -/
def emittedModelName (r : Option Data × List LogEntry) : Option PbValue :=
  (emittedModel r).bind (fun m => alookup m.MetadataFields NameField)

/-! ### Lemmas about association-list maps -/

theorem alookup_cons {κ β : Type} [DecidableEq κ] (p : κ × β) (m : List (κ × β))
    (k : κ) : alookup (p :: m) k = if p.1 = k then some p.2 else alookup m k := by
  by_cases h : p.1 = k <;> simp [alookup, List.find?, h]

theorem alookup_filter_ne {κ β : Type} [DecidableEq κ] (m : List (κ × β))
    (k k' : κ) (h : k' ≠ k) :
    alookup (m.filter (fun p => !(decide (p.1 = k)))) k' = alookup m k' := by
  induction m with
  | nil => rfl
  | cons p m ih =>
    by_cases hp : p.1 = k
    · have hpk : p.1 ≠ k' := by rw [hp]; exact fun e => h e.symm
      rw [List.filter_cons, alookup_cons, if_neg hpk]
      simp [hp, ih]
    · simp [List.filter_cons, hp, alookup_cons, ih]

theorem alookup_ainsert {κ β : Type} [DecidableEq κ] (m : List (κ × β)) (k : κ)
    (v : β) (k' : κ) :
    alookup (ainsert m k v) k' = if k = k' then some v else alookup m k' := by
  unfold ainsert
  rw [alookup_cons]
  by_cases h : k = k'
  · simp [h]
  · simp [h, alookup_filter_ne m k k' (fun e => h e.symm)]

theorem alookup_ainsert_self {κ β : Type} [DecidableEq κ] (m : List (κ × β))
    (k : κ) (v : β) : alookup (ainsert m k v) k = some v := by
  rw [alookup_ainsert]; simp

theorem alookup_eq_none_iff {κ β : Type} [DecidableEq κ] (m : List (κ × β))
    (k : κ) : alookup m k = none ↔ ∀ p ∈ m, p.1 ≠ k := by
  simp [alookup, List.find?_eq_none]

theorem alookup_foldl_ainsert {κ β : Type} [DecidableEq κ] (gs : List (κ × β))
    (m : List (κ × β)) (k : κ) (h : ∀ p ∈ gs, p.1 ≠ k) :
    alookup (gs.foldl (fun acc p => ainsert acc p.1 p.2) m) k = alookup m k := by
  induction gs generalizing m with
  | nil => rfl
  | cons g gs ih =>
    rw [List.foldl_cons, ih _ (fun p hp => h p (List.mem_cons_of_mem _ hp)),
      alookup_ainsert]
    exact if_neg (h g (List.mem_cons_self _ _))

/-! ### Lemmas about the protobuf encoding -/

theorem alookup_metadataFieldsFromMap (m : Smap) (k : String) :
    alookup (metadataFieldsFromMap m) k = (alookup m k).map (wrapValue k) := by
  induction m with
  | nil => rfl
  | cons p m ih =>
    by_cases h : p.1 = k
    · subst h
      simp [metadataFieldsFromMap, alookup_cons]
    · simp only [metadataFieldsFromMap, List.map_cons] at *
      rw [alookup_cons, alookup_cons]
      simp [h, ih]

theorem keys_metadataFieldsFromMap (m : Smap) :
    (metadataFieldsFromMap m).map Prod.fst = m.map Prod.fst := by
  induction m with
  | nil => rfl
  | cons p m ih => simp [metadataFieldsFromMap, ih]

theorem wrapValue_name (v : String) :
    wrapValue NameField v = PbValue.stringValue v := by
  rw [wrapValue, if_neg]
  · rfl
  · decide

/-! ### Lemmas about collectDims and matchedTagValues -/

theorem collectDims_snd (tags : List Tag) (ds : List String) :
    (collectDims tags ds).2 = matchedTagValues ds tags := by
  induction ds with
  | nil => rfl
  | cons d ds ih =>
    rw [collectDims, matchedTagValues, List.filterMap_cons]
    cases h : tags.find? (fun t => decide (t.Key = d)) with
    | none => simpa [h, matchedTagValues] using ih
    | some t => simpa [h, matchedTagValues] using ih

theorem alookup_collectDims_of_notmem (tags : List Tag) (ds : List String)
    (d : String) (hd : d ∉ ds) : alookup (collectDims tags ds).1 d = none := by
  induction ds with
  | nil => rfl
  | cons d0 ds ih =>
    have hne : d0 ≠ d := fun e => hd (e ▸ List.mem_cons_self _ _)
    have hnm : d ∉ ds := fun e => hd (List.mem_cons_of_mem _ e)
    rw [collectDims]
    cases h : tags.find? (fun t => decide (t.Key = d0)) with
    | none => simpa [h] using ih hnm
    | some t =>
      simp only [h]
      rw [alookup_ainsert, if_neg hne]
      exact ih hnm

theorem alookup_collectDims_of_mem (tags : List Tag) (ds : List String)
    (d : String) (hd : d ∈ ds) :
    alookup (collectDims tags ds).1 d =
      (tags.find? (fun t => decide (t.Key = d))).map Tag.Value := by
  induction ds with
  | nil => cases hd
  | cons d0 ds ih =>
    rw [collectDims]
    by_cases he : d0 = d
    · subst he
      cases h : tags.find? (fun t => decide (t.Key = d0)) with
      | none =>
        simp only [h, Option.map_none']
        by_cases hmem : d0 ∈ ds
        · rw [ih hmem, h]; rfl
        · exact alookup_collectDims_of_notmem tags ds d0 hmem
      | some t =>
        simp only [h]
        rw [alookup_ainsert_self]
        rfl
    · have hmem : d ∈ ds := by
        rcases List.mem_cons.mp hd with h1 | h1
        · exact absurd h1.symm he
        · exact h1
      cases h : tags.find? (fun t => decide (t.Key = d0)) with
      | none => simpa [h] using ih hmem
      | some t =>
        simp only [h]
        rw [alookup_ainsert, if_neg he]
        exact ih hmem

/-! ### Permutation invariance of first-match lookup over unique keys -/

theorem find?_eq_head_filter {α : Type} (p : α → Bool) (l : List α) :
    l.find? p = (l.filter p).head? := by
  induction l with
  | nil => rfl
  | cons a t ih =>
    cases h : p a
    · rw [List.find?_cons_of_neg _ (by simp [h]), List.filter_cons_of_neg (by simp [h]), ih]
    · rw [List.find?_cons_of_pos _ h, List.filter_cons_of_pos h, List.head?_cons]

theorem find?_perm_of_unique {α : Type} (p : α → Bool) {l l' : List α}
    (hp : l.Perm l') (hu : ∀ a ∈ l, ∀ b ∈ l, p a = true → p b = true → a = b) :
    l.find? p = l'.find? p := by
  rw [find?_eq_head_filter, find?_eq_head_filter]
  have hf : (l.filter p).Perm (l'.filter p) := hp.filter p
  cases hl : l.filter p with
  | nil =>
    rw [hl] at hf
    have hlen := hf.length_eq
    simp only [List.length_nil] at hlen
    rw [List.eq_nil_of_length_eq_zero hlen.symm]
  | cons a t =>
    rw [hl] at hf
    cases hl' : l'.filter p with
    | nil =>
      rw [hl'] at hf
      have hlen := hf.length_eq
      simp at hlen
    | cons b t' =>
      rw [hl'] at hf
      have hb : b ∈ a :: t := hf.symm.subset (List.mem_cons_self _ _)
      have ha' : a ∈ l.filter p := hl ▸ List.mem_cons_self _ _
      have hb' : b ∈ l.filter p := hl ▸ hb
      have haL := List.mem_filter.mp ha'
      have hbL := List.mem_filter.mp hb'
      have hba : b = a := hu b hbL.1 a haL.1 hbL.2 haL.2
      simp [hba]

theorem tag_find?_perm {tags tags' : List Tag} (d : String) (hp : tags.Perm tags')
    (hn : (tags.map Tag.Key).Nodup) :
    tags.find? (fun t => decide (t.Key = d)) =
      tags'.find? (fun t => decide (t.Key = d)) := by
  apply find?_perm_of_unique _ hp
  intro a ha b hb hpa hpb
  have hka : a.Key = d := of_decide_eq_true hpa
  have hkb : b.Key = d := of_decide_eq_true hpb
  exact List.inj_on_of_nodup_map hn ha hb (by rw [hka, hkb])

theorem matchedTagValues_perm (ds : List String) {tags tags' : List Tag}
    (hp : tags.Perm tags') (hn : (tags.map Tag.Key).Nodup) :
    matchedTagValues ds tags = matchedTagValues ds tags' := by
  unfold matchedTagValues
  induction ds with
  | nil => rfl
  | cons d ds ih =>
    rw [List.filterMap_cons, List.filterMap_cons, tag_find?_perm d hp hn, ih]

/-! ### Characterization of the emitted model record -/

theorem onViewRow_model_spec (opts : Options) (vd : ViewData) (row : Row)
    (h1 : matchedTagValues opts.ModelDimensionTags row.Tags ≠ []) :
    ∃ m : Model, emittedModel (onViewRow opts vd row) = some m ∧
      m.Dimensions = opts.GlobalDimensions.foldl (fun mm p => ainsert mm p.1 p.2)
        (collectDims row.Tags opts.ModelDimensionTags).1 ∧
      alookup m.MetadataFields NameField =
        some (PbValue.stringValue
          (String.intercalate "/" (matchedTagValues opts.ModelDimensionTags row.Tags))) := by
  have hne : ¬ (collectDims row.Tags opts.ModelDimensionTags).2 = [] := by
    rw [collectDims_snd]; exact h1
  simp only [onViewRow]
  rw [if_neg hne, if_neg hne]
  refine ⟨_, rfl, rfl, ?_⟩
  rw [alookup_metadataFieldsFromMap, alookup_ainsert_self, Option.map_some',
    wrapValue_name, collectDims_snd]

/-! ### Claim C1 -/

/-- C1: for every row with at least one tag whose key equals a configured
dimension tag name, the emitted model record's name metadata field is the
matched tag values joined by "/" in configured-dimension order (first row tag
matching each configured name wins, as expressed by `matchedTagValues`), and
this name is unchanged under any permutation of the row's tag sequence (row
tag keys being unique, as they are for an OpenCensus tag set). -/
theorem model_name_is_configured_order_join (opts : Options) (vd : ViewData)
    (row : Row)
    (h1 : matchedTagValues opts.ModelDimensionTags row.Tags ≠ [])
    (h2 : (row.Tags.map Tag.Key).Nodup) :
    emittedModelName (onViewRow opts vd row) =
      some (PbValue.stringValue
        (String.intercalate "/" (matchedTagValues opts.ModelDimensionTags row.Tags)))
    ∧ ∀ tags2 : List Tag, row.Tags.Perm tags2 →
        emittedModelName (onViewRow opts vd { row with Tags := tags2 }) =
          some (PbValue.stringValue
            (String.intercalate "/"
              (matchedTagValues opts.ModelDimensionTags row.Tags))) := by
  constructor
  · obtain ⟨m, hm, _, hname⟩ := onViewRow_model_spec opts vd row h1
    simp [emittedModelName, hm, hname]
  · intro tags2 hperm
    have hmv : matchedTagValues opts.ModelDimensionTags tags2 =
        matchedTagValues opts.ModelDimensionTags row.Tags :=
      (matchedTagValues_perm opts.ModelDimensionTags hperm h2).symm
    have h1' : matchedTagValues opts.ModelDimensionTags tags2 ≠ [] := by
      rw [hmv]; exact h1
    obtain ⟨m, hm, _, hname⟩ :=
      onViewRow_model_spec opts vd { row with Tags := tags2 } h1'
    simp [emittedModelName, hm, hname, hmv]

/-- C1 witness at a concrete input. -/
theorem model_name_is_configured_order_join_witness :
    matchedTagValues ["svc", "zone"]
        [⟨"zone", "z1"⟩, ⟨"svc", "api"⟩, ⟨"extra", "x"⟩] ≠ []
    ∧ (([⟨"zone", "z1"⟩, ⟨"svc", "api"⟩, ⟨"extra", "x"⟩] : List Tag).map
        Tag.Key).Nodup
    ∧ emittedModelName
        (onViewRow { ModelDimensionTags := ["svc", "zone"] }
          ⟨"v", "", "", 0, []⟩ ⟨[⟨"zone", "z1"⟩, ⟨"svc", "api"⟩, ⟨"extra", "x"⟩],
            .countData 1⟩) =
        some (PbValue.stringValue "api/z1") :=
  ⟨by decide, by decide,
    (model_name_is_configured_order_join { ModelDimensionTags := ["svc", "zone"] }
      ⟨"v", "", "", 0, []⟩
      ⟨[⟨"zone", "z1"⟩, ⟨"svc", "api"⟩, ⟨"extra", "x"⟩], .countData 1⟩
      (by decide) (by decide)).1⟩

/-! ### Claim C2 -/

/-- C2: a row in which no tag key equals any configured dimension tag name
yields no model and no metric record; onViewRow skips it with a single
debug-level trace. -/
theorem row_without_dimension_tags_emits_nothing (opts : Options)
    (vd : ViewData) (row : Row)
    (h : ∀ t ∈ row.Tags, t.Key ∉ opts.ModelDimensionTags) :
    onViewRow opts vd row =
      (none, [⟨LogLevelDebug, [], "ignoring row with no model dimension tags"⟩]) := by
  have hnil : (collectDims row.Tags opts.ModelDimensionTags).2 = [] := by
    rw [collectDims_snd]
    apply List.filterMap_eq_nil_iff.mpr
    intro d hd
    rw [Option.map_eq_none', List.find?_eq_none]
    intro t ht hdec
    exact h t ht (by rwa [of_decide_eq_true hdec])
  simp only [onViewRow]
  rw [if_pos hnil]

/-- C2 witness at a concrete input. -/
theorem row_without_dimension_tags_emits_nothing_witness :
    onViewRow { ModelDimensionTags := ["a"] } ⟨"v", "", "", 0, []⟩
        ⟨[⟨"b", "v"⟩], .countData 1⟩ =
      (none, [⟨LogLevelDebug, [], "ignoring row with no model dimension tags"⟩]) :=
  row_without_dimension_tags_emits_nothing { ModelDimensionTags := ["a"] }
    ⟨"v", "", "", 0, []⟩ ⟨[⟨"b", "v"⟩], .countData 1⟩ (by decide)

/-! ### Claim C3 -/

/-- C3: a row carrying a distribution aggregation, whose dimension resolution
succeeded, emits exactly five metric records named `<name>/count`, `/min`,
`/max`, `/mean`, `/ss` with values count, min, max, mean and
sum-of-squared-deviation (order of emission not significant, hence stated up
to permutation), all five sharing one timestamp and equal dimension sets;
this holds for arbitrary (also degenerate) distribution values. -/
theorem distribution_row_emits_five_metrics (opts : Options) (vd : ViewData)
    (row : Row) (count : Int) (mn mx mean ss : Rat)
    (h1 : matchedTagValues opts.ModelDimensionTags row.Tags ≠ [])
    (hd : row.Data = .distributionData count mn mx mean ss) :
    ((onViewRow opts vd row).1).isSome = true
    ∧ (((onViewRow opts vd row).1).getD ⟨[], []⟩).Metrics.length = 5
    ∧ ((((onViewRow opts vd row).1).getD ⟨[], []⟩).Metrics.map
        (fun m => (m.MetricName, m.Value))).Perm
        [(vd.Name ++ "/count", (count : Rat)), (vd.Name ++ "/min", mn),
         (vd.Name ++ "/max", mx), (vd.Name ++ "/mean", mean),
         (vd.Name ++ "/ss", ss)]
    ∧ ∀ m1 ∈ (((onViewRow opts vd row).1).getD ⟨[], []⟩).Metrics,
        ∀ m2 ∈ (((onViewRow opts vd row).1).getD ⟨[], []⟩).Metrics,
          m1.Timestamp = m2.Timestamp ∧ m1.Dimensions = m2.Dimensions := by
  have hne : ¬ (collectDims row.Tags opts.ModelDimensionTags).2 = [] := by
    rw [collectDims_snd]; exact h1
  simp only [onViewRow, hd]
  rw [if_neg hne, if_neg hne]
  refine ⟨rfl, rfl, ?_, ?_⟩
  · exact List.Perm.refl _
  · intro m1 hm1 m2 hm2
    simp only [Option.getD_some, List.mem_cons, List.not_mem_nil, or_false] at hm1 hm2
    rcases hm1 with rfl | rfl | rfl | rfl | rfl <;>
      rcases hm2 with rfl | rfl | rfl | rfl | rfl <;> exact ⟨rfl, rfl⟩

/-- C3 witness at a concrete input. -/
theorem distribution_row_emits_five_metrics_witness :
    matchedTagValues ["svc"] [⟨"svc", "api"⟩] ≠ []
    ∧ (⟨[⟨"svc", "api"⟩], .distributionData 10 1 9 5 20⟩ : Row).Data =
        .distributionData 10 1 9 5 20
    ∧ ((onViewRow { ModelDimensionTags := ["svc"] } ⟨"lat", "d", "ms", 5000000, []⟩
        ⟨[⟨"svc", "api"⟩], .distributionData 10 1 9 5 20⟩).1).isSome = true
    ∧ (((onViewRow { ModelDimensionTags := ["svc"] } ⟨"lat", "d", "ms", 5000000, []⟩
        ⟨[⟨"svc", "api"⟩], .distributionData 10 1 9 5 20⟩).1).getD
          ⟨[], []⟩).Metrics.length = 5
    ∧ ((((onViewRow { ModelDimensionTags := ["svc"] } ⟨"lat", "d", "ms", 5000000, []⟩
        ⟨[⟨"svc", "api"⟩], .distributionData 10 1 9 5 20⟩).1).getD
          ⟨[], []⟩).Metrics.map (fun m => (m.MetricName, m.Value))).Perm
        [("lat/count", (10 : Rat)), ("lat/min", 1), ("lat/max", 9),
         ("lat/mean", 5), ("lat/ss", 20)] :=
  ⟨by decide, rfl,
    (distribution_row_emits_five_metrics { ModelDimensionTags := ["svc"] }
      ⟨"lat", "d", "ms", 5000000, []⟩
      ⟨[⟨"svc", "api"⟩], .distributionData 10 1 9 5 20⟩ 10 1 9 5 20
      (by decide) rfl).1,
    (distribution_row_emits_five_metrics { ModelDimensionTags := ["svc"] }
      ⟨"lat", "d", "ms", 5000000, []⟩
      ⟨[⟨"svc", "api"⟩], .distributionData 10 1 9 5 20⟩ 10 1 9 5 20
      (by decide) rfl).2.1,
    (distribution_row_emits_five_metrics { ModelDimensionTags := ["svc"] }
      ⟨"lat", "d", "ms", 5000000, []⟩
      ⟨[⟨"svc", "api"⟩], .distributionData 10 1 9 5 20⟩ 10 1 9 5 20
      (by decide) rfl).2.2.1⟩

/-! ### Claim C9 -/

theorem filterMap_congr_mem {α β : Type} (l : List α) (f g : α → Option β)
    (h : ∀ a ∈ l, f a = g a) : l.filterMap f = l.filterMap g := by
  induction l with
  | nil => rfl
  | cons a t ih =>
    rw [List.filterMap_cons, List.filterMap_cons, h a (List.mem_cons_self _ _),
      ih (fun b hb => h b (List.mem_cons_of_mem _ hb))]

/-- C9 (amended): the emitted model's name metadata field is the row-derived
matched tag values joined by "/" in configured-dimension order, and it equals
the record's own dimension values joined in that order provided no global
dimension overrides a configured dimension tag; with such an override the
name keeps the row-derived value (see the counterexample). -/
theorem model_name_matches_dimensions_without_global_override (opts : Options)
    (vd : ViewData) (row : Row)
    (h1 : matchedTagValues opts.ModelDimensionTags row.Tags ≠ [])
    (hg : ∀ d ∈ opts.ModelDimensionTags, alookup opts.GlobalDimensions d = none) :
    (emittedModel (onViewRow opts vd row)).isSome = true
    ∧ alookup ((emittedModel (onViewRow opts vd row)).getD
          ⟨0, [], []⟩).MetadataFields NameField =
        some (PbValue.stringValue (String.intercalate "/"
          (opts.ModelDimensionTags.filterMap
            (fun d => alookup ((emittedModel (onViewRow opts vd row)).getD
              ⟨0, [], []⟩).Dimensions d)))) := by
  obtain ⟨m, hm, hdims, hname⟩ := onViewRow_model_spec opts vd row h1
  have hmaps : opts.ModelDimensionTags.filterMap (fun d => alookup m.Dimensions d) =
      matchedTagValues opts.ModelDimensionTags row.Tags := by
    rw [matchedTagValues]
    apply filterMap_congr_mem
    intro d hd
    rw [hdims, alookup_foldl_ainsert _ _ _ ((alookup_eq_none_iff _ _).mp (hg d hd)),
      alookup_collectDims_of_mem _ _ _ hd]
  refine ⟨by simp [hm], ?_⟩
  rw [hm]
  simp only [Option.getD_some]
  rw [hmaps]
  exact hname

/-- C9 witness at a concrete input without a global-dimension override. -/
theorem model_name_matches_dimensions_without_global_override_witness :
    matchedTagValues ["a"] [⟨"a", "r"⟩] ≠ []
    ∧ (emittedModel (onViewRow
        { ModelDimensionTags := ["a"], GlobalDimensions := [("b", "g")] }
        ⟨"v", "", "", 0, []⟩ ⟨[⟨"a", "r"⟩], .countData 1⟩)).isSome = true
    ∧ alookup ((emittedModel (onViewRow
          { ModelDimensionTags := ["a"], GlobalDimensions := [("b", "g")] }
          ⟨"v", "", "", 0, []⟩ ⟨[⟨"a", "r"⟩], .countData 1⟩)).getD
            ⟨0, [], []⟩).MetadataFields NameField =
        some (PbValue.stringValue (String.intercalate "/"
          ((["a"] : List String).filterMap
            (fun d => alookup ((emittedModel (onViewRow
              { ModelDimensionTags := ["a"], GlobalDimensions := [("b", "g")] }
              ⟨"v", "", "", 0, []⟩ ⟨[⟨"a", "r"⟩], .countData 1⟩)).getD
                ⟨0, [], []⟩).Dimensions d)))) :=
  ⟨by decide,
    (model_name_matches_dimensions_without_global_override
      { ModelDimensionTags := ["a"], GlobalDimensions := [("b", "g")] }
      ⟨"v", "", "", 0, []⟩ ⟨[⟨"a", "r"⟩], .countData 1⟩
      (by decide) (by decide)).1,
    (model_name_matches_dimensions_without_global_override
      { ModelDimensionTags := ["a"], GlobalDimensions := [("b", "g")] }
      ⟨"v", "", "", 0, []⟩ ⟨[⟨"a", "r"⟩], .countData 1⟩
      (by decide) (by decide)).2⟩

/-- C9 counterexample: with GlobalDimensions = [("a","g")] overriding the row
tag ("a","r") that was matched by the configured dimension tag "a", the
emitted model's name metadata field is "r" (the row-derived value), while its
own dimension values joined in configured order give "g" — so the name does
not equal the record's own dimension values joined by "/". -/
theorem global_override_breaks_name_dimension_match :
    emittedModelName (onViewRow
        { ModelDimensionTags := ["a"], GlobalDimensions := [("a", "g")] }
        ⟨"v", "", "", 0, []⟩ ⟨[⟨"a", "r"⟩], .countData 1⟩) =
      some (PbValue.stringValue "r")
    ∧ (emittedModel (onViewRow
        { ModelDimensionTags := ["a"], GlobalDimensions := [("a", "g")] }
        ⟨"v", "", "", 0, []⟩ ⟨[⟨"a", "r"⟩], .countData 1⟩)).map
        (fun m => PbValue.stringValue (String.intercalate "/"
          ((["a"] : List String).filterMap (fun d => alookup m.Dimensions d)))) =
      some (PbValue.stringValue "g")
    ∧ emittedModelName (onViewRow
        { ModelDimensionTags := ["a"], GlobalDimensions := [("a", "g")] }
        ⟨"v", "", "", 0, []⟩ ⟨[⟨"a", "r"⟩], .countData 1⟩) ≠
      (emittedModel (onViewRow
        { ModelDimensionTags := ["a"], GlobalDimensions := [("a", "g")] }
        ⟨"v", "", "", 0, []⟩ ⟨[⟨"a", "r"⟩], .countData 1⟩)).map
        (fun m => PbValue.stringValue (String.intercalate "/"
          ((["a"] : List String).filterMap (fun d => alookup m.Dimensions d)))) := by
  refine ⟨rfl, rfl, ?_⟩
  intro h
  rw [show emittedModelName (onViewRow
        { ModelDimensionTags := ["a"], GlobalDimensions := [("a", "g")] }
        ⟨"v", "", "", 0, []⟩ ⟨[⟨"a", "r"⟩], .countData 1⟩) =
      some (PbValue.stringValue "r") from rfl] at h
  rw [show (emittedModel (onViewRow
        { ModelDimensionTags := ["a"], GlobalDimensions := [("a", "g")] }
        ⟨"v", "", "", 0, []⟩ ⟨[⟨"a", "r"⟩], .countData 1⟩)).map
        (fun m => PbValue.stringValue (String.intercalate "/"
          ((["a"] : List String).filterMap (fun d => alookup m.Dimensions d)))) =
      some (PbValue.stringValue "g") from rfl] at h
  simp at h

/-! ### Claim C5 -/

/-- C5: a snapshot whose name matches any configured ignore pattern (some
compiled pattern's FindString result on the name is non-empty) is rejected by
ExportView before any row is processed: zero model and zero metric records
are emitted and every log entry is at debug severity. -/
theorem ignored_view_emits_no_records (e : Exporter) (vd : ViewData)
    (h : matchesIgnored e vd.Name = true) :
    (e.ExportView vd).1.Models = [] ∧ (e.ExportView vd).1.Metrics = []
    ∧ ∀ l ∈ (e.ExportView vd).2, l.Level = LogLevelDebug := by
  simp only [Exporter.ExportView]
  rw [if_pos h]
  refine ⟨rfl, rfl, ?_⟩
  intro l hl
  simp only [List.cons_append, List.nil_append, List.mem_cons,
    List.not_mem_nil, or_false] at hl
  rcases hl with rfl | rfl <;> rfl

/-- C5 witness at a concrete input. -/
theorem ignored_view_emits_no_records_witness :
    matchesIgnored ⟨{}, [fun s => s], 1000, 1000, 3600⟩ "n" = true
    ∧ (Exporter.ExportView ⟨{}, [fun s => s], 1000, 1000, 3600⟩
        ⟨"n", "", "", 0, []⟩).1.Models = []
    ∧ (Exporter.ExportView ⟨{}, [fun s => s], 1000, 1000, 3600⟩
        ⟨"n", "", "", 0, []⟩).1.Metrics = [] :=
  ⟨rfl,
    (ignored_view_emits_no_records ⟨{}, [fun s => s], 1000, 1000, 3600⟩
      ⟨"n", "", "", 0, []⟩ rfl).1,
    (ignored_view_emits_no_records ⟨{}, [fun s => s], 1000, 1000, 3600⟩
      ⟨"n", "", "", 0, []⟩ rfl).2.1⟩

/-! ### Claim C4 -/

theorem alookup_evict_ainsert (ttl later : Int) (fm : FreshMap) (k v : Nat)
    (t : Int) :
    alookup (evictExpired ttl later (ainsert fm k (v, t))) k =
      if later - t > ttl then none else some (v, t) := by
  unfold evictExpired ainsert
  rw [List.filter_cons]
  by_cases h : later - t > ttl
  · rw [if_pos h]
    simp only [decide_eq_true_eq, h, decide_True, Bool.not_true, Bool.false_eq_true,
      if_false]
    apply (alookup_eq_none_iff _ _).mpr
    intro p hp
    have hm := (List.mem_filter.mp hp).1
    have hne := (List.mem_filter.mp hm).2
    simpa using hne
  · rw [if_neg h]
    have : (!(decide (later - (k, (v, t)).2.2 > ttl))) = true := by
      simpa using h
    rw [if_pos this, alookup_cons, if_pos rfl]

/-- C4: isFresh returns true exactly when the cache holds an entry keyed by
the hash of the model's dimensions whose stored value is the hash of the
model's metadata fields, and then the cache is unchanged; in every other
case the entry is inserted/overwritten at the current time and false is
returned.  Consequently an identical resubmission surviving eviction (age
within the TTL) is suppressed, a submission with a different metadata hash is
allowed, and after eviction at TTL expiry an unchanged resubmission is
allowed again. -/
theorem isFresh_cache_contract (hashD : Smap → Nat) (hashM : PbFields → Nat)
    (now : Int) (fm : FreshMap) (model : Model) :
    ((isFresh hashD hashM now fm model).1 = true ↔
      ∃ t : Int, alookup fm (hashD model.Dimensions) =
        some (hashM model.MetadataFields, t))
    ∧ ((isFresh hashD hashM now fm model).1 = true →
        (isFresh hashD hashM now fm model).2 = fm)
    ∧ ((isFresh hashD hashM now fm model).1 = false →
        (isFresh hashD hashM now fm model).2 =
          ainsert fm (hashD model.Dimensions) (hashM model.MetadataFields, now))
    ∧ (∀ ttl later : Int, (isFresh hashD hashM now fm model).1 = false →
        later - now ≤ ttl →
        (isFresh hashD hashM later
          (evictExpired ttl later (isFresh hashD hashM now fm model).2)
          model).1 = true)
    ∧ (∀ model2 : Model, hashD model2.Dimensions = hashD model.Dimensions →
        hashM model2.MetadataFields ≠ hashM model.MetadataFields →
        (isFresh hashD hashM now (isFresh hashD hashM now fm model).2
          model2).1 = false)
    ∧ (∀ ttl later : Int, ttl < later - now →
        (isFresh hashD hashM later
          (evictExpired ttl later
            (ainsert fm (hashD model.Dimensions)
              (hashM model.MetadataFields, now))) model).1 = false) := by
  have hconj6 : ∀ ttl later : Int, ttl < later - now →
      (isFresh hashD hashM later
        (evictExpired ttl later
          (ainsert fm (hashD model.Dimensions)
            (hashM model.MetadataFields, now))) model).1 = false := by
    intro ttl later hlt
    have hev : alookup (evictExpired ttl later
        (ainsert fm (hashD model.Dimensions) (hashM model.MetadataFields, now)))
        (hashD model.Dimensions) = none := by
      rw [alookup_evict_ainsert]; exact if_pos hlt
    simp [isFresh, hev]
  have hsuppress : ∀ ttl later : Int, later - now ≤ ttl →
      (isFresh hashD hashM later
        (evictExpired ttl later
          (ainsert fm (hashD model.Dimensions)
            (hashM model.MetadataFields, now))) model).1 = true := by
    intro ttl later hle
    have hev : alookup (evictExpired ttl later
        (ainsert fm (hashD model.Dimensions) (hashM model.MetadataFields, now)))
        (hashD model.Dimensions) =
        some (hashM model.MetadataFields, now) := by
      rw [alookup_evict_ainsert]; exact if_neg (not_lt.mpr hle)
    simp [isFresh, hev]
  cases h : alookup fm (hashD model.Dimensions) with
  | none =>
    have hr : isFresh hashD hashM now fm model =
        (false, ainsert fm (hashD model.Dimensions)
          (hashM model.MetadataFields, now)) := by
      simp [isFresh, h]
    refine ⟨?_, ?_, ?_, ?_, ?_, hconj6⟩
    · rw [hr]
      constructor
      · intro hx; exact Bool.noConfusion hx
      · rintro ⟨t, ht⟩; exact Option.noConfusion ht
    · rw [hr]; intro hx; exact Bool.noConfusion hx
    · intro _; rw [hr]
    · intro ttl later _ hle
      rw [hr]
      exact hsuppress ttl later hle
    · intro model2 hdim hmeta
      rw [hr]
      have hlk : alookup (ainsert fm (hashD model.Dimensions)
          (hashM model.MetadataFields, now)) (hashD model2.Dimensions) =
          some (hashM model.MetadataFields, now) := by
        rw [hdim, alookup_ainsert_self]
      simp [isFresh, hlk, hmeta]
  | some old =>
    by_cases hv : hashM model.MetadataFields = old.1
    · have hr : isFresh hashD hashM now fm model = (true, fm) := by
        simp [isFresh, h, hv]
      refine ⟨?_, ?_, ?_, ?_, ?_, hconj6⟩
      · rw [hr]
        refine ⟨fun _ => ⟨old.2, ?_⟩, fun _ => rfl⟩
        rw [hv]
      · intro _; rw [hr]
      · rw [hr]; intro hx; exact Bool.noConfusion hx
      · intro ttl later hx
        rw [hr] at hx
        exact Bool.noConfusion hx
      · intro model2 hdim hmeta
        rw [hr]
        have hlk : alookup fm (hashD model2.Dimensions) = some old := by
          rw [hdim, h]
        have hne2 : hashM model2.MetadataFields ≠ old.1 := by
          rw [← hv]; exact hmeta
        simp [isFresh, hlk, hne2]
    · have hr : isFresh hashD hashM now fm model =
          (false, ainsert fm (hashD model.Dimensions)
            (hashM model.MetadataFields, now)) := by
        simp [isFresh, h, hv]
      refine ⟨?_, ?_, ?_, ?_, ?_, hconj6⟩
      · rw [hr]
        constructor
        · intro hx; exact Bool.noConfusion hx
        · rintro ⟨t, ht⟩
          injection ht with hpair
          exact absurd (congrArg Prod.fst hpair).symm hv
      · rw [hr]; intro hx; exact Bool.noConfusion hx
      · intro _; rw [hr]
      · intro ttl later _ hle
        rw [hr]
        exact hsuppress ttl later hle
      · intro model2 hdim hmeta
        rw [hr]
        have hlk : alookup (ainsert fm (hashD model.Dimensions)
            (hashM model.MetadataFields, now)) (hashD model2.Dimensions) =
            some (hashM model.MetadataFields, now) := by
          rw [hdim, alookup_ainsert_self]
        simp [isFresh, hlk, hmeta]

/-- C4 witness: a first submission is not fresh, and its unchanged
resubmission after an eviction pass within the TTL is fresh. -/
theorem isFresh_cache_contract_witness :
    (isFresh (fun _ => 0) (fun l => l.length) 0 [] ⟨0, [], []⟩).1 = false
    ∧ (isFresh (fun _ => 0) (fun l => l.length) 10
        (evictExpired 3600 10
          (isFresh (fun _ => 0) (fun l => l.length) 0 [] ⟨0, [], []⟩).2)
        ⟨0, [], []⟩).1 = true :=
  ⟨rfl,
    (isFresh_cache_contract (fun _ => 0) (fun l => l.length) 0 [] ⟨0, [], []⟩).2.2.2.1
      3600 10 rfl (by decide)⟩

/-! ### Claim C7 -/

/-- C7: in the bundling loop, a record whose add fails (with overflow or any
other error) contributes exactly one error-severity log entry, is the only
record dropped (the bundler state seen by the remaining records is exactly
the state before the failing record), and processing continues with all
remaining records; every record contributes at most one log entry and the
loop always terminates without aborting. -/
theorem bundleLoop_drops_only_failed_record {σ α : Type}
    (add : σ → α → Except BundlerErr σ) (s : σ) (x : α) (rest : List α)
    (e : BundlerErr) (h : add s x = Except.error e) :
    bundleLoop add metricsOverflowLog metricsAddErrorLog s (x :: rest) =
      ((bundleLoop add metricsOverflowLog metricsAddErrorLog s rest).1,
       (match e with
        | .overflow => metricsOverflowLog
        | .other => metricsAddErrorLog) ::
         (bundleLoop add metricsOverflowLog metricsAddErrorLog s rest).2)
    ∧ (match e with
       | .overflow => metricsOverflowLog
       | .other => metricsAddErrorLog).Level = LogLevelError
    ∧ ∀ (t : σ) (ys : List α),
        ((bundleLoop add metricsOverflowLog metricsAddErrorLog t ys).2).length ≤
          ys.length := by
  refine ⟨?_, ?_, ?_⟩
  · cases e <;> simp [bundleLoop, h]
  · cases e <;> rfl
  · intro t ys
    induction ys generalizing t with
    | nil => simp [bundleLoop]
    | cons y ys ih =>
      cases hy : add t y with
      | ok s2 =>
        have hstep : bundleLoop add metricsOverflowLog metricsAddErrorLog t (y :: ys) =
            bundleLoop add metricsOverflowLog metricsAddErrorLog s2 ys := by
          simp [bundleLoop, hy]
        rw [hstep, List.length_cons]
        exact Nat.le_succ_of_le (ih s2)
      | error e2 =>
        cases e2
        · have hstep : (bundleLoop add metricsOverflowLog metricsAddErrorLog t
              (y :: ys)).2 = metricsOverflowLog ::
              (bundleLoop add metricsOverflowLog metricsAddErrorLog t ys).2 := by
            simp [bundleLoop, hy]
          rw [hstep, List.length_cons, List.length_cons]
          exact Nat.succ_le_succ (ih t)
        · have hstep : (bundleLoop add metricsOverflowLog metricsAddErrorLog t
              (y :: ys)).2 = metricsAddErrorLog ::
              (bundleLoop add metricsOverflowLog metricsAddErrorLog t ys).2 := by
            simp [bundleLoop, hy]
          rw [hstep, List.length_cons, List.length_cons]
          exact Nat.succ_le_succ (ih t)

/-- C7 witness at a concrete input with an overflowing add. -/
theorem bundleLoop_drops_only_failed_record_witness :
    ((fun (_ : Unit) (_ : Unit) =>
        (Except.error BundlerErr.overflow : Except BundlerErr Unit)) () () =
      Except.error BundlerErr.overflow)
    ∧ bundleLoop (fun (_ : Unit) (_ : Unit) =>
          (Except.error BundlerErr.overflow : Except BundlerErr Unit))
        metricsOverflowLog metricsAddErrorLog () [()] =
        ((bundleLoop (fun (_ : Unit) (_ : Unit) =>
            (Except.error BundlerErr.overflow : Except BundlerErr Unit))
          metricsOverflowLog metricsAddErrorLog () []).1,
         metricsOverflowLog ::
          (bundleLoop (fun (_ : Unit) (_ : Unit) =>
              (Except.error BundlerErr.overflow : Except BundlerErr Unit))
            metricsOverflowLog metricsAddErrorLog () []).2)
    ∧ metricsOverflowLog.Level = LogLevelError :=
  ⟨rfl,
    (bundleLoop_drops_only_failed_record
      (fun (_ : Unit) (_ : Unit) =>
        (Except.error BundlerErr.overflow : Except BundlerErr Unit))
      () () [] BundlerErr.overflow rfl).1,
    (bundleLoop_drops_only_failed_record
      (fun (_ : Unit) (_ : Unit) =>
        (Except.error BundlerErr.overflow : Except BundlerErr Unit))
      () () [] BundlerErr.overflow rfl).2.1⟩

/-! ### Claim C8 -/

/-- C8: every outbound send of a models or metrics batch has exactly one of
three terminal outcomes, each producing exactly one log entry and no retry:
an erroring call logs at error severity with the record count; a successful
call with a positive failed count logs at warning severity with the counts;
a successful call with no failures logs at debug severity with the count. -/
theorem put_send_outcome_trichotomy (callM : List Model → Except String PutStatus)
    (models : List Model) (callX : List Metric → Except String PutStatus)
    (metrics : List Metric) :
    (putModels callM models).length = 1
    ∧ (putMetrics callX metrics).length = 1
    ∧ (∀ err, callM models = .error err →
        putModels callM models =
          [⟨LogLevelError, [("models", (models.length : Int))],
            "unable to send models"⟩])
    ∧ (∀ st, callM models = .ok st → st.Failed > 0 →
        putModels callM models =
          [⟨LogLevelWarning, [("models", (models.length : Int)), ("failed", st.Failed)],
            "failed to send models"⟩])
    ∧ (∀ st, callM models = .ok st → ¬ st.Failed > 0 →
        putModels callM models =
          [⟨LogLevelDebug, [("models", (models.length : Int))], "sent models"⟩])
    ∧ (∀ err, callX metrics = .error err →
        putMetrics callX metrics =
          [⟨LogLevelError, [("metrics", (metrics.length : Int))],
            "unable to send metrics"⟩])
    ∧ (∀ st, callX metrics = .ok st → st.Failed > 0 →
        putMetrics callX metrics =
          [⟨LogLevelWarning, [("metrics", (metrics.length : Int)), ("failed", st.Failed)],
            "failed to send metrics"⟩])
    ∧ (∀ st, callX metrics = .ok st → ¬ st.Failed > 0 →
        putMetrics callX metrics =
          [⟨LogLevelDebug, [("metrics", (metrics.length : Int))], "sent metrics"⟩]) := by
  refine ⟨?_, ?_, ?_, ?_, ?_, ?_, ?_, ?_⟩
  · cases h : callM models with
    | error err => simp [putModels, h]
    | ok st => by_cases hf : st.Failed > 0 <;> simp [putModels, h, hf]
  · cases h : callX metrics with
    | error err => simp [putMetrics, h]
    | ok st => by_cases hf : st.Failed > 0 <;> simp [putMetrics, h, hf]
  · intro err h; simp [putModels, h]
  · intro st h hf; simp [putModels, h, hf]
  · intro st h hf; simp [putModels, h, hf]
  · intro err h; simp [putMetrics, h]
  · intro st h hf; simp [putMetrics, h, hf]
  · intro st h hf; simp [putMetrics, h, hf]

/-- C8 witness: a failing models call and a fully successful metrics call. -/
theorem put_send_outcome_trichotomy_witness :
    putModels (fun _ => Except.error "boom") [] =
      [⟨LogLevelError, [("models", 0)], "unable to send models"⟩]
    ∧ putMetrics (fun _ => Except.ok ⟨0⟩) [] =
      [⟨LogLevelDebug, [("metrics", 0)], "sent metrics"⟩] :=
  ⟨(put_send_outcome_trichotomy (fun _ => Except.error "boom") []
      (fun _ => Except.ok ⟨0⟩) []).2.2.1 "boom" rfl,
    (put_send_outcome_trichotomy (fun _ => Except.error "boom") []
      (fun _ => Except.ok ⟨0⟩) []).2.2.2.2.2.2.2 ⟨0⟩ rfl (by decide)⟩

/-! ### Claim C6 -/

theorem compileIgnored_isOk (compile : String → Except String (String → String))
    (l : List String) :
    exceptIsOk (compileIgnored compile l) = l.all (fun s => exceptIsOk (compile s)) := by
  induction l with
  | nil => rfl
  | cons s rest ih =>
    rw [compileIgnored, List.all_cons]
    cases hc : compile s with
    | error e => rfl
    | ok r =>
      have hmap : ∀ x : Except String (List (String → String)),
          exceptIsOk (x.map (fun rs => r :: rs)) = exceptIsOk x := by
        intro x; cases x <;> rfl
      rw [hmap, ih]
      rfl

/-- C6 (amended): NewExporter succeeds exactly when every configured
ignore-pattern compiles and dialing the (defaulted) address succeeds; an
invalid ignore pattern aborts construction with the compile error, while a
missing API key or empty address never affects the construction outcome (the
address is replaced by DefaultAddress rather than rejected, and the API key
is stored unvalidated). -/
theorem newExporter_failure_characterization
    (compile : String → Except String (String → String))
    (dial : String → Except String Unit) (opts : Options) :
    exceptIsOk (NewExporter compile dial opts) =
      (opts.IgnoredMetricNames.all (fun s => exceptIsOk (compile s)) &&
        exceptIsOk (dial (if opts.Address = "" then DefaultAddress else opts.Address)))
    ∧ ∀ k : String,
        exceptIsOk (NewExporter compile dial { opts with APIKey := k }) =
          exceptIsOk (NewExporter compile dial opts) := by
  have hchar : ∀ o : Options, exceptIsOk (NewExporter compile dial o) =
      (o.IgnoredMetricNames.all (fun s => exceptIsOk (compile s)) &&
        exceptIsOk (dial (if o.Address = "" then DefaultAddress else o.Address))) := by
    intro o
    by_cases ha : o.Address = ""
    · simp only [NewExporter, ha, if_pos trivial, if_true]
      cases hc : compileIgnored compile o.IgnoredMetricNames with
      | error e =>
        have := compileIgnored_isOk compile o.IgnoredMetricNames
        rw [hc] at this
        rw [← this]
        rfl
      | ok rs =>
        have := compileIgnored_isOk compile o.IgnoredMetricNames
        rw [hc] at this
        rw [← this]
        cases hd : dial DefaultAddress <;> rfl
    · simp only [NewExporter, ha, if_false]
      cases hc : compileIgnored compile o.IgnoredMetricNames with
      | error e =>
        have := compileIgnored_isOk compile o.IgnoredMetricNames
        rw [hc] at this
        rw [← this]
        rfl
      | ok rs =>
        have := compileIgnored_isOk compile o.IgnoredMetricNames
        rw [hc] at this
        rw [← this]
        cases hd : dial o.Address <;> rfl
  refine ⟨hchar opts, ?_⟩
  intro k
  rw [hchar { opts with APIKey := k }, hchar opts]

/-- C6 counterexample: an exporter is successfully constructed from a
configuration with an empty API key and an empty address (the address is
silently defaulted and the credential is never checked), so construction
does not fail on a missing credential or endpoint. -/
theorem missing_apikey_or_address_does_not_fail_construction :
    ({} : Options).APIKey = "" ∧ ({} : Options).Address = ""
    ∧ exceptIsOk (NewExporter (fun s => Except.error s)
        (fun _ => Except.ok ()) {}) = true :=
  ⟨rfl, rfl, rfl⟩

/-! ### Claim C10 -/

/-- C10: converting a metadata map to protobuf structpb fields encodes the
impactFromDimensions and impactToDimensions fields as a list value holding
exactly the one string element, encodes every other field as a plain string
value, and preserves exactly the map's key set. -/
theorem metadataFields_encoding (m : Smap) (k : String) :
    alookup (metadataFieldsFromMap m) k = (alookup m k).map (wrapValue k)
    ∧ (metadataFieldsFromMap m).map Prod.fst = m.map Prod.fst
    ∧ (∀ v, wrapValue ImpactFromDimensionsField v =
        PbValue.listValue [PbValue.stringValue v])
    ∧ (∀ v, wrapValue ImpactToDimensionsField v =
        PbValue.listValue [PbValue.stringValue v])
    ∧ (k ≠ ImpactFromDimensionsField → k ≠ ImpactToDimensionsField →
        ∀ v, wrapValue k v = PbValue.stringValue v) := by
  refine ⟨alookup_metadataFieldsFromMap m k, keys_metadataFieldsFromMap m,
    fun v => ?_, fun v => ?_, fun h1 h2 v => ?_⟩
  · rw [wrapValue, if_pos (Or.inl rfl)]; rfl
  · rw [wrapValue, if_pos (Or.inr rfl)]; rfl
  · rw [wrapValue, if_neg ?_]
    · rfl
    · rintro (he | he)
      · exact h1 he
      · exact h2 he

/-- C10 witness at a concrete map and a non-impact key. -/
theorem metadataFields_encoding_witness :
    alookup (metadataFieldsFromMap [("x", "y")]) "x" =
      (alookup [("x", "y")] "x").map (wrapValue "x")
    ∧ wrapValue "x" "y" = PbValue.stringValue "y" :=
  ⟨(metadataFields_encoding [("x", "y")] "x").1,
    (metadataFields_encoding [("x", "y")] "x").2.2.2.2
      (by decide) (by decide) "y"⟩

end ZenossExporter
